import Mathlib

/-!
Shallow embedding of the Brutal Maze main loop (brutalmaze/main.py, version
0.5.3): the movement controller (Game.move, lines 118-140), the frame-rate
adjustment and the event dispatch of Game.loop (lines 142-186), together with
proofs about them.  Machine floats are modelled by exact rationals; wall-clock
inputs (the measured frame rate, the stun window) and the opaque world update
are modelled as per-tick oracle inputs.
-/

namespace Brutalmaze

/-- Modelled from the spec: the signum used by the deceleration law.  The
helper module misc providing the sign function is not among the given sources;
section 4.2 of the spec writes the deceleration step as v - sign(v) * accel,
which forces the standard signum (1 for positive, -1 for negative, 0 at 0). -/
def sign (q : ℚ) : ℚ := if 0 < q then 1 else if q < 0 then -1 else 0

/-- Per-axis velocity update of Game.move (main.py lines 124-131 for x, the
same law on lines 133-140 for y): deceleration with snap-to-zero when stunned
or the intent is 0, double acceleration against opposing motion, and plain
acceleration with clamping otherwise. -/
def moveAxis (velocity accel : ℚ) (stunned : Bool) (d : Int) (v : ℚ) : ℚ :=
  if stunned = true ∨ d = 0 then
    let v1 := v - sign v * accel
    if |v1| < accel * 2 then 0 else v1
  else if (d : ℚ) * v < 0 then v + (d : ℚ) * 2 * accel
  else
    let v1 := v + (d : ℚ) * accel
    if velocity < |v1| then (d : ℚ) * velocity else v1

/-- The velocity bound distance * HERO_SPEED / fps (main.py line 121). -/
def velocityBound (heroSpeed distance fps : ℚ) : ℚ := distance * heroSpeed / fps

/-- The per-tick acceleration velocity * HERO_SPEED / fps (main.py line 122). -/
def accelOf (heroSpeed distance fps : ℚ) : ℚ :=
  velocityBound heroSpeed distance fps * heroSpeed / fps

/-- Modelled from the spec: the world collaborator state visible to the main
loop (the maze module is not among the given sources).  The fields are the
ones section 6 of the spec lists as read or written by the loop; the stun
timestamp comparison with the wall clock is replaced by a per-tick stun flag
supplied as an oracle input. -/
structure MazeState where
  distance : ℚ
  vx : ℚ
  vy : ℚ
  dead : Bool
  firing : Bool
  slashing : Bool
deriving DecidableEq

/-- Game.move (main.py lines 118-140): update both axes of the velocity using
the per-axis law with the shared velocity bound and acceleration. -/
def move (heroSpeed fps : ℚ) (stunned : Bool) (x y : Int) (m : MazeState) : MazeState :=
  let velocity := velocityBound heroSpeed m.distance fps
  let accel := accelOf heroSpeed m.distance fps
  { m with vx := moveAxis velocity accel stunned x m.vx,
           vy := moveAxis velocity accel stunned y m.vy }

/-- The control-binding table built by ConfigReader.parse_control: a key code
for each alias, where only the shot and slash aliases may instead be bound to
a mouse button (an absent key binding falls back to the mouse binding). -/
structure Bindings where
  new : Nat
  pause : Nat
  mute : Nat
  left : Nat
  right : Nat
  up : Nat
  down : Nat
  shot : Option Nat
  slash : Option Nat
  mouseShot : Nat
  mouseSlash : Nat
deriving DecidableEq

/-- The loop-owned state of the Game object: the world collaborator, the
rate state (fps, max_fps), the paused flag and the engaged state of the
audio subsystem (pygame.mixer.get_init() is not None). -/
structure GameState where
  maze : MazeState
  fps : ℚ
  maxFps : ℤ
  paused : Bool
  audioOn : Bool
deriving DecidableEq

/-- Discrete events drained by Game.loop (main.py lines 144-162).  Modelled
from the spec: a resize event carries the distance value the world derives
from the new viewport (the maze module is not among the given sources). -/
inductive Event where
  | quit : Event
  | videoresize : ℚ → Event
  | keydown : Nat → Event
  | other : Event
deriving DecidableEq

/-- The oracle inputs consumed by one iteration of Game.loop: the drained
event queue, the pressed-key and pressed-mouse-button snapshots, the stun
flag (wall clock against the stun window), the measured throughput returned
by clock.get_fps(), and the hero-death outcome of the opaque world update. -/
structure TickInput where
  events : List Event
  pressed : List Nat
  mouseButtons : List Nat
  stunned : Bool
  measured : ℚ
  deadAfter : Bool
deriving DecidableEq

/-- Modelled from the spec: re-running the world constructor
(self.maze.reinit in main.py line 152) returns the collaborator to a fresh
state preserving object identity; the velocity state resets to zero and the
hero is alive again.  The viewport-derived distance is unchanged. -/
def mazeReinit (m : MazeState) : MazeState :=
  { m with vx := 0, vy := 0, dead := false, firing := false, slashing := false }

/-- Modelled from the spec: maze.update(fps) advances the simulation with
opaque side effects; it owns the hero-death outcome (supplied as an oracle)
and does not touch the velocity state, which section 3 of the spec assigns
exclusively to the movement controller, nor the rate state. -/
def mazeUpdate (m : MazeState) (deadAfter : Bool) : MazeState :=
  { m with dead := deadAfter }

/-- One discrete event processed as in main.py lines 145-162: quit stops the
loop, resize reaches the world, and a key press runs the first matching
branch of the new / pause / mute elif chain. -/
def processEvent (b : Bindings) (s : GameState) : Event → Option GameState
  | Event.quit => none
  | Event.videoresize nd => some { s with maze := { s.maze with distance := nd } }
  | Event.keydown k =>
      if k = b.new then some { s with maze := mazeReinit s.maze }
      else if k = b.pause ∧ s.maze.dead = false then some { s with paused := !s.paused }
      else if k = b.mute then some { s with audioOn := !s.audioOn }
      else some s
  | Event.other => some s

/-- Process a drained event queue in order, stopping at a quit event. -/
def processEvents (b : Bindings) : GameState → List Event → Option GameState
  | s, [] => some s
  | s, e :: es =>
      match processEvent b s e with
      | none => none
      | some s1 => processEvents b s1 es

/-- Horizontal intent keys[left] - keys[right] (main.py line 166). -/
def intentX (b : Bindings) (pressed : List Nat) : Int :=
  (if pressed.contains b.left then 1 else 0) - (if pressed.contains b.right then 1 else 0)

/-- Vertical intent keys[up] - keys[down] (main.py line 167). -/
def intentY (b : Bindings) (pressed : List Nat) : Int :=
  (if pressed.contains b.up then 1 else 0) - (if pressed.contains b.down then 1 else 0)

/-- The key-binding lookup with mouse-button fallback used for the firing and
slashing flags (main.py lines 169-176): the try/except KeyError pattern is
modelled as an optional key binding. -/
def lookupAction (pressed mouseButtons : List Nat) (keyBind : Option Nat) (mouseBind : Nat) : Bool :=
  match keyBind with
  | some k => pressed.contains k
  | none => mouseButtons.contains mouseBind

/-- The alive-only input block of Game.loop (main.py lines 164-176): sample
the pressed state, run the movement controller, and set the action flags. -/
def movementPhase (heroSpeed : ℚ) (b : Bindings) (t : TickInput) (s : GameState) : GameState :=
  if s.maze.dead = true then s
  else
    let m1 := move heroSpeed s.fps t.stunned (intentX b t.pressed) (intentY b t.pressed) s.maze
    { s with maze :=
        { m1 with firing := lookupAction t.pressed t.mouseButtons b.shot b.mouseShot,
                  slashing := lookupAction t.pressed t.mouseButtons b.slash b.mouseSlash } }

/-- The frame-rate adjustment of Game.loop (main.py lines 179-183): drop by 1
when the measured throughput is below the target, otherwise ramp up by 5 when
below max_fps and not paused. -/
def fpsAdjust (measured fps : ℚ) (maxFps : ℤ) (paused : Bool) : ℚ :=
  if measured < fps then fps - 1
  else if fps < (maxFps : ℚ) ∧ paused = false then fps + 5
  else fps

/-- One iteration of Game.loop (main.py lines 142-186): drain events (none on
quit), run the movement phase when the hero is alive, adjust the rate, and
advance the world unless paused.  The blocking clock.tick call has no
observable effect on the modelled state. -/
def loopStep (heroSpeed : ℚ) (b : Bindings) (s : GameState) (t : TickInput) : Option GameState :=
  match processEvents b s t.events with
  | none => none
  | some s1 =>
      let s2 := movementPhase heroSpeed b t s1
      let s3 := { s2 with fps := fpsAdjust t.measured s2.fps s2.maxFps s2.paused }
      some (if s3.paused then s3 else { s3 with maze := mazeUpdate s3.maze t.deadAfter })

/-- Iterate the loop over a list of per-tick oracle inputs. -/
def runLoop (heroSpeed : ℚ) (b : Bindings) : GameState → List TickInput → Option GameState
  | s, [] => some s
  | s, t :: ts =>
      match loopStep heroSpeed b s t with
      | none => none
      | some s1 => runLoop heroSpeed b s1 ts

/-- The state built by Game.init: fps starts at float(max_fps), the loop
starts unpaused, the audio subsystem is engaged unless muted, and the fresh
world has zero velocity and a live hero. -/
def initGame (maxFps : ℤ) (distance : ℚ) (muted : Bool) : GameState :=
  { maze := { distance := distance, vx := 0, vy := 0,
              dead := false, firing := false, slashing := false },
    fps := (maxFps : ℚ), maxFps := maxFps, paused := false, audioOn := !muted }

/-- Iterated per-axis updates with a fixed intent, bound and acceleration. -/
def iterAxis (velocity accel : ℚ) (stunned : Bool) (d : Int) : Nat → ℚ → ℚ
  | 0, v => v
  | n + 1, v => moveAxis velocity accel stunned d (iterAxis velocity accel stunned d n v)

/-- Repeated stunned calls with a per-call intent taken from a list. -/
def stunFold (velocity accel : ℚ) (ds : List Int) (v : ℚ) : ℚ :=
  ds.foldl (fun w d => moveAxis velocity accel true d w) v

/-- The per-axis update law exactly as claim C1 words it: velocity_bound and
accel from distance, HERO_SPEED and fps, deceleration with snap below
2 * accel, double acceleration against opposing motion, clamping to the
bound otherwise. -/
def moveAxisClaim (heroSpeed distance fps : ℚ) (stunned : Bool) (d : Int) (v : ℚ) : ℚ :=
  let vb := distance * heroSpeed / fps
  let accel := vb * heroSpeed / fps
  if stunned = true ∨ d = 0 then
    let v1 := v - sign v * accel
    if |v1| < 2 * accel then 0 else v1
  else if (d : ℚ) * v < 0 then v + (d : ℚ) * 2 * accel
  else
    let v1 := v + (d : ℚ) * accel
    if vb < |v1| then (d : ℚ) * vb else v1

/-- The rate-adjustment law exactly as claim C2 words it, including the
claimed clamp of the ramp-up to max_fps. -/
def fpsAdjustClaim (measured fps : ℚ) (maxFps : ℤ) (paused : Bool) : ℚ :=
  if measured < fps then fps - 1
  else if fps < (maxFps : ℚ) ∧ paused = false then min ((maxFps : ℚ)) (fps + 5)
  else fps

/-! Concrete fixtures used by counterexamples and witnesses. -/

/-- A binding table with distinct keys for every alias. -/
def bStd : Bindings :=
  { new := 1, pause := 2, mute := 3, left := 4, right := 5, up := 6, down := 7,
    shot := some 8, slash := some 9, mouseShot := 0, mouseSlash := 2 }

/-- A running, paused, alive state with nonzero velocity. -/
def sPaused : GameState :=
  { maze := { distance := 100, vx := 3, vy := 4,
              dead := false, firing := false, slashing := false },
    fps := 57, maxFps := 60, paused := true, audioOn := true }

/-- A binding table in which one key code serves both the new-game and the
toggle-pause aliases (the binding layer does not forbid this). -/
def bNewPause : Bindings :=
  { new := 5, pause := 5, mute := 3, left := 4, right := 6, up := 7, down := 8,
    shot := some 9, slash := some 10, mouseShot := 0, mouseSlash := 2 }

/-- An unpaused alive state. -/
def sAlive : GameState :=
  { maze := { distance := 100, vx := 0, vy := 0,
              dead := false, firing := false, slashing := false },
    fps := 60, maxFps := 60, paused := false, audioOn := true }

/-- A binding table in which one key code serves both the toggle-pause and
the toggle-mute aliases. -/
def bPauseMute : Bindings :=
  { new := 1, pause := 5, mute := 5, left := 4, right := 6, up := 7, down := 8,
    shot := some 9, slash := some 10, mouseShot := 0, mouseSlash := 2 }

/-- An unpaused state whose hero is dead, with the audio engaged. -/
def sDead : GameState :=
  { maze := { distance := 100, vx := 0, vy := 0,
              dead := true, firing := false, slashing := false },
    fps := 60, maxFps := 60, paused := false, audioOn := true }

/-- An idle tick: no events, nothing pressed, zero measured throughput. -/
def tIdle : TickInput :=
  { events := [], pressed := [], mouseButtons := [], stunned := false,
    measured := 0, deadAfter := false }

/-- An idle tick whose measured throughput is 59. -/
def tFiftyNine : TickInput :=
  { events := [], pressed := [], mouseButtons := [], stunned := false,
    measured := 59, deadAfter := false }

/-- An idle tick whose measured throughput is 60. -/
def tSixty : TickInput :=
  { events := [], pressed := [], mouseButtons := [], stunned := false,
    measured := 60, deadAfter := false }

/-! Event-dispatch facts. -/

/-- Fields untouched by the movement phase. -/
lemma movementPhase_rate (hs : ℚ) (b : Bindings) (t : TickInput) (s : GameState) :
    (movementPhase hs b t s).fps = s.fps ∧ (movementPhase hs b t s).maxFps = s.maxFps
      ∧ (movementPhase hs b t s).paused = s.paused := by
  unfold movementPhase
  split <;> simp

/-- C4, counterexample: processing the new-game key on a paused state leaves
the loop paused; the claim that paused is cleared is false.  The world is
reinitialised and the rate state is kept, but paused stays true. -/
theorem c4_new_game_paused_counterexample :
    processEvent bStd sPaused (Event.keydown 1)
        = some { maze := { distance := 100, vx := 0, vy := 0,
                           dead := false, firing := false, slashing := false },
                 fps := 57, maxFps := 60, paused := true, audioOn := true }
      ∧ sPaused.paused = true ∧ bStd.new = 1
      ∧ (processEvent bStd sPaused (Event.keydown 1)).map GameState.paused ≠ some false := by
  decide

/-- C4 (amended): a KeyDown matching the new-game binding reinitialises the
world collaborator to a fresh state (zero velocity, live hero) and preserves
everything the loop owns: the rate state and, contrary to the original claim,
also the paused flag, which is left unchanged rather than cleared. -/
theorem c4_new_game_preserves_state (b : Bindings) (s : GameState) :
    processEvent b s (Event.keydown b.new) = some { s with maze := mazeReinit s.maze } := by
  simp [processEvent]

/-- C8, counterexample: with one key bound to both the new-game and the
toggle-pause aliases, a KeyDown matching the toggle-pause binding does not
flip paused even though the hero is alive (the new-game branch wins), so
"flips paused if and only if the hero is alive" is false as stated. -/
theorem c8_pause_toggle_counterexample :
    bNewPause.pause = 5 ∧ sAlive.maze.dead = false ∧ sAlive.paused = false
      ∧ (processEvent bNewPause sAlive (Event.keydown 5)).map GameState.paused = some false := by
  decide

/-- C8 (amended): a KeyDown matching the toggle-pause binding and not the
new-game binding flips paused exactly when the hero is alive, and leaves
paused unchanged for every prior value while the hero is dead. -/
theorem c8_pause_toggle_guarded (b : Bindings) (s : GameState) (k : Nat)
    (hp : k = b.pause) (hn : k ≠ b.new) :
    (processEvent b s (Event.keydown k)).map GameState.paused
      = some (cond s.maze.dead s.paused (!s.paused)) := by
  subst hp
  cases hdead : s.maze.dead with
  | false => simp [processEvent, hn, hdead]
  | true =>
      by_cases hm : b.pause = b.mute
      · simp [processEvent, hn, hdead]
        simp [hm]
      · simp [processEvent, hn, hdead, hm]

theorem c8_pause_toggle_guarded_witness :
    (2 = bStd.pause) ∧ (2 ≠ bStd.new)
      ∧ (processEvent bStd sPaused (Event.keydown 2)).map GameState.paused
          = some (cond sPaused.maze.dead sPaused.paused (!sPaused.paused)) :=
  ⟨by decide, by decide, c8_pause_toggle_guarded bStd sPaused 2 (by decide) (by decide)⟩

/-- C9: a KeyDown matching the toggle-mute binding (and no earlier branch of
the elif chain) inverts the engaged state of the audio subsystem, and two
consecutive such events restore the original engaged state. -/
theorem c9_mute_double_toggle (b : Bindings) (s : GameState) (k : Nat)
    (hm : k = b.mute) (hn : k ≠ b.new) (hp : ¬(k = b.pause ∧ s.maze.dead = false)) :
    (processEvent b s (Event.keydown k)).map GameState.audioOn = some (!s.audioOn)
      ∧ ((processEvent b s (Event.keydown k)).bind
            (fun s1 => processEvent b s1 (Event.keydown k))).map GameState.audioOn
          = some s.audioOn := by
  subst hm
  constructor
  · simp [processEvent, hn, hp]
  · simp [processEvent, hn, hp]

theorem c9_mute_double_toggle_witness :
    (3 = bStd.mute) ∧ (3 ≠ bStd.new) ∧ ¬(3 = bStd.pause ∧ sPaused.maze.dead = false)
      ∧ ((processEvent bStd sPaused (Event.keydown 3)).map GameState.audioOn
            = some (!sPaused.audioOn)
          ∧ ((processEvent bStd sPaused (Event.keydown 3)).bind
                (fun s1 => processEvent bStd s1 (Event.keydown 3))).map GameState.audioOn
              = some sPaused.audioOn) :=
  ⟨by decide, by decide, by decide,
    c9_mute_double_toggle bStd sPaused 3 (by decide) (by decide) (by decide)⟩

/-- C10, counterexample: a key bound to both the toggle-pause and toggle-mute
aliases fires the mute handler, not the pause handler, while the hero is
dead; the claimed unconditional priority of toggle-pause over toggle-mute is
false (the pause branch is guarded by the hero being alive). -/
theorem c10_priority_counterexample :
    bPauseMute.pause = 5 ∧ bPauseMute.mute = 5 ∧ sDead.maze.dead = true
      ∧ processEvent bPauseMute sDead (Event.keydown 5) = some { sDead with audioOn := false }
      ∧ (processEvent bPauseMute sDead (Event.keydown 5)).map GameState.paused
          = some sDead.paused := by
  decide

/-- C10 (amended): for a key bound to several of the new, pause and mute
aliases exactly one handler fires, by the priority new-game over toggle-pause
over toggle-mute, where the toggle-pause handler only takes part while the
hero is alive: new-game always wins; toggle-pause wins over toggle-mute when
the hero is alive; and the mute handler fires when no earlier branch does. -/
theorem c10_priority_guarded (b : Bindings) (s : GameState) (k : Nat) :
    (k = b.new → processEvent b s (Event.keydown k) = some { s with maze := mazeReinit s.maze })
      ∧ (k ≠ b.new → k = b.pause → s.maze.dead = false →
          processEvent b s (Event.keydown k) = some { s with paused := !s.paused })
      ∧ (k ≠ b.new → (k = b.pause → s.maze.dead = true) → k = b.mute →
          processEvent b s (Event.keydown k) = some { s with audioOn := !s.audioOn }) := by
  refine ⟨fun h1 => by subst h1; simp [processEvent],
          fun h1 h2 h3 => by subst h2; simp [processEvent, h1, h3],
          fun h1 h2 h3 => ?_⟩
  subst h3
  have hp : ¬(b.mute = b.pause ∧ s.maze.dead = false) := by
    rintro ⟨hk, hd⟩
    simp [h2 hk] at hd
  simp [processEvent, h1, hp]

theorem c10_priority_guarded_witness :
    (processEvent bStd sAlive (Event.keydown 1) = some { sAlive with maze := mazeReinit sAlive.maze })
      ∧ (processEvent bStd sAlive (Event.keydown 2) = some { sAlive with paused := !sAlive.paused })
      ∧ (processEvent bPauseMute sDead (Event.keydown 5) = some { sDead with audioOn := !sDead.audioOn }) :=
  ⟨(c10_priority_guarded bStd sAlive 1).1 (by decide),
   (c10_priority_guarded bStd sAlive 2).2.1 (by decide) (by decide) (by decide),
   (c10_priority_guarded bPauseMute sDead 5).2.2 (by decide) (fun _ => by decide) (by decide)⟩

/-! Rate-adjustment facts. -/

/-- C2, counterexample: on the reachable tick (measured = 59, current = 59,
max = 60, unpaused) the code ramps the rate to 64, while the claimed law
min(max_fps, current + 5) predicts 60: the ramp-up is not clamped to max_fps.
The trace drops the rate from 60 to 59 and then ramps it to 64. -/
theorem c2_ramp_clamp_counterexample :
    fpsAdjust 59 59 60 false = 64 ∧ fpsAdjustClaim 59 59 60 false = 60
      ∧ (runLoop 5 bStd (initGame 60 100 false) [tIdle, tFiftyNine]).map GameState.fps
          = some 64 := by
  refine ⟨by norm_num [fpsAdjust], by norm_num [fpsAdjustClaim, min_def], ?_⟩
  norm_num [runLoop, loopStep, processEvents, movementPhase, move, moveAxis, sign,
    intentX, intentY, lookupAction, velocityBound, accelOf, fpsAdjust, mazeUpdate,
    initGame, bStd, tIdle, tFiftyNine]

/-- C2 (amended): the rate adjustment performed before the world update maps
current_fps to current_fps - 1 when the measured throughput is below it,
otherwise to current_fps + 5 - without clamping to max_fps - when current_fps
is below max_fps and the loop is not paused, and otherwise leaves it
unchanged; in particular (55, 60, 60, unpaused) gives 59, (60, 55, 60,
unpaused) gives 60 and (60, 58, 60, paused) gives 58. -/
theorem c2_rate_adjust_law (hs : ℚ) (b : Bindings) (s : GameState) (t : TickInput)
    (he : t.events = []) :
    (loopStep hs b s t).map GameState.fps
        = some (if t.measured < s.fps then s.fps - 1
                else if s.fps < (s.maxFps : ℚ) ∧ s.paused = false then s.fps + 5 else s.fps)
      ∧ fpsAdjust 55 60 60 false = 59 ∧ fpsAdjust 60 55 60 false = 60
      ∧ fpsAdjust 60 58 60 true = 58 := by
  refine ⟨?_, by norm_num [fpsAdjust], by norm_num [fpsAdjust], by norm_num [fpsAdjust]⟩
  obtain ⟨h1, h2, h3⟩ := movementPhase_rate hs b t s
  by_cases hp : s.paused = true <;>
    simp [loopStep, he, processEvents, fpsAdjust, h1, h2, h3, hp]

theorem c2_rate_adjust_law_witness :
    tIdle.events = []
      ∧ ((loopStep 5 bStd sPaused tIdle).map GameState.fps
            = some (if tIdle.measured < sPaused.fps then sPaused.fps - 1
                    else if sPaused.fps < (sPaused.maxFps : ℚ) ∧ sPaused.paused = false
                    then sPaused.fps + 5 else sPaused.fps)
          ∧ fpsAdjust 55 60 60 false = 59 ∧ fpsAdjust 60 55 60 false = 60
          ∧ fpsAdjust 60 58 60 true = 58) :=
  ⟨rfl, c2_rate_adjust_law 5 bStd sPaused tIdle rfl⟩

/-! Movement-controller facts. -/

lemma sign_of_pos {q : ℚ} (h : 0 < q) : sign q = 1 := by
  rw [sign, if_pos h]

lemma sign_of_neg {q : ℚ} (h : q < 0) : sign q = -1 := by
  rw [sign, if_neg (by linarith), if_pos h]

lemma sign_zero : sign 0 = 0 := by
  norm_num [sign]

lemma moveAxis_stun (V a : ℚ) (st : Bool) (d : Int) (v : ℚ) (h : st = true ∨ d = 0) :
    moveAxis V a st d v = if |v - sign v * a| < a * 2 then 0 else v - sign v * a := by
  unfold moveAxis
  rw [if_pos h]

lemma moveAxis_rev (V a : ℚ) (st : Bool) (d : Int) (v : ℚ)
    (h1 : ¬(st = true ∨ d = 0)) (h2 : (d : ℚ) * v < 0) :
    moveAxis V a st d v = v + (d : ℚ) * 2 * a := by
  unfold moveAxis
  rw [if_neg h1, if_pos h2]

lemma moveAxis_fwd (V a : ℚ) (st : Bool) (d : Int) (v : ℚ)
    (h1 : ¬(st = true ∨ d = 0)) (h2 : ¬((d : ℚ) * v < 0)) :
    moveAxis V a st d v
      = if V < |v + (d : ℚ) * a| then (d : ℚ) * V else v + (d : ℚ) * a := by
  unfold moveAxis
  rw [if_neg h1, if_neg h2]

lemma moveAxis_stun_zero (V a : ℚ) (st : Bool) (d : Int) (ha : 0 < a)
    (h : st = true ∨ d = 0) : moveAxis V a st d 0 = 0 := by
  rw [moveAxis_stun V a st d 0 h, sign_zero]
  have h2 : (0 : ℚ) < a * 2 := by linarith
  simp [h2]

lemma moveAxis_stun_pos {v : ℚ} (V a : ℚ) (st : Bool) (d : Int) (ha : 0 < a)
    (h : st = true ∨ d = 0) (hv : 0 < v) :
    moveAxis V a st d v = if v < 3 * a then 0 else v - a := by
  rw [moveAxis_stun V a st d v h, sign_of_pos hv, one_mul]
  by_cases h3 : v < 3 * a
  · rw [if_pos h3, if_pos]
    rw [abs_lt]
    constructor <;> linarith
  · rw [if_neg h3, if_neg]
    exact not_lt.mpr (le_abs.mpr (Or.inl (by linarith)))

lemma moveAxis_stun_neg {v : ℚ} (V a : ℚ) (st : Bool) (d : Int) (ha : 0 < a)
    (h : st = true ∨ d = 0) (hv : v < 0) :
    moveAxis V a st d v = if -(3 * a) < v then 0 else v + a := by
  rw [moveAxis_stun V a st d v h, sign_of_neg hv]
  have hrw : v - -1 * a = v + a := by ring
  rw [hrw]
  by_cases h3 : -(3 * a) < v
  · rw [if_pos h3, if_pos]
    rw [abs_lt]
    constructor <;> linarith
  · rw [if_neg h3, if_neg]
    exact not_lt.mpr (le_abs.mpr (Or.inr (by linarith)))

lemma moveAxisClaim_eq (hs dist fps : ℚ) (st : Bool) (d : Int) (v : ℚ) :
    moveAxisClaim hs dist fps st d v
      = moveAxis (velocityBound hs dist fps) (accelOf hs dist fps) st d v := by
  simp only [moveAxisClaim, moveAxis, velocityBound, accelOf]
  rw [mul_comm (2 : ℚ) (dist * hs / fps * hs / fps)]

/-- C1: Game.move updates each axis in place, independently, by exactly the
law the claim states: with velocity_bound = distance * HERO_SPEED / fps and
accel = velocity_bound * HERO_SPEED / fps, deceleration with snap to 0 below
2 * accel when stunned or the intent is 0, unclamped double acceleration
against opposing motion, and acceleration clamped to d * velocity_bound
otherwise. -/
theorem c1_move_matches_claim_law (hs fps : ℚ) (st : Bool) (x y : Int) (m : MazeState)
    (hx : x = -1 ∨ x = 0 ∨ x = 1) (hy : y = -1 ∨ y = 0 ∨ y = 1)
    (hdist : 0 < m.distance) (hfps : 0 < fps) :
    move hs fps st x y m
      = { m with vx := moveAxisClaim hs m.distance fps st x m.vx,
                 vy := moveAxisClaim hs m.distance fps st y m.vy } := by
  simp only [move]
  rw [moveAxisClaim_eq, moveAxisClaim_eq]

theorem c1_move_matches_claim_law_witness :
    (((1 : Int) = -1 ∨ (1 : Int) = 0 ∨ (1 : Int) = 1)
      ∧ ((0 : Int) = -1 ∨ (0 : Int) = 0 ∨ (0 : Int) = 1)
      ∧ (0 : ℚ) < sAlive.maze.distance ∧ (0 : ℚ) < 60)
    ∧ move 5 60 false 1 0 sAlive.maze
        = { sAlive.maze with
              vx := moveAxisClaim 5 sAlive.maze.distance 60 false 1 sAlive.maze.vx,
              vy := moveAxisClaim 5 sAlive.maze.distance 60 false 0 sAlive.maze.vy } :=
  ⟨⟨by norm_num, by norm_num, by norm_num [sAlive], by norm_num⟩,
    c1_move_matches_claim_law 5 60 false 1 0 sAlive.maze (by norm_num) (by norm_num)
      (by norm_num [sAlive]) (by norm_num)⟩

lemma stunFold_cons (V a : ℚ) (d : Int) (ds : List Int) (v : ℚ) :
    stunFold V a (d :: ds) v = stunFold V a ds (moveAxis V a true d v) := by
  simp [stunFold]

lemma stunFold_le_zero (V a : ℚ) (ha : 0 < a) :
    ∀ (ds : List Int) (v : ℚ), |v| ≤ (ds.length : ℚ) * a → stunFold V a ds v = 0 := by
  intro ds
  induction ds with
  | nil =>
      intro v h
      have h0 : v = 0 := abs_nonpos_iff.mp (by simpa using h)
      simp [stunFold, h0]
  | cons d ds ih =>
      intro v h
      rw [stunFold_cons]
      apply ih
      have hlen : ((d :: ds).length : ℚ) * a = (ds.length : ℚ) * a + a := by
        rw [List.length_cons]
        push_cast
        ring
      rw [hlen] at h
      have hna : (0 : ℚ) ≤ (ds.length : ℚ) * a := by positivity
      rcases lt_trichotomy v 0 with hv | hv | hv
      · rw [moveAxis_stun_neg V a true d ha (Or.inl rfl) hv]
        rw [abs_of_neg hv] at h
        split_ifs with hc
        · simpa using hna
        · rw [abs_of_neg (by linarith)]
          linarith
      · rw [hv, moveAxis_stun_zero V a true d ha (Or.inl rfl)]
        simpa using hna
      · rw [moveAxis_stun_pos V a true d ha (Or.inl rfl) hv]
        rw [abs_of_pos hv] at h
        split_ifs with hc
        · simpa using hna
        · rw [abs_of_pos (by linarith)]
          linarith

/-- C6: while stunned, every call to the movement controller strictly
decreases each axis speed (when it is not already zero), never flips the
velocity past zero to the opposite sign, drives the velocity to exactly zero
within ceil(speed / accel) calls whatever the per-call intents are, and keeps
it at zero afterwards. -/
theorem c6_stun_decelerates (hs dist fps : ℚ)
    (hhs : 0 < hs) (hdist : 0 < dist) (hfps : 0 < fps) :
    (∀ (d : Int) (v : ℚ), v ≠ 0 →
        |moveAxis (velocityBound hs dist fps) (accelOf hs dist fps) true d v| < |v|)
    ∧ (∀ (d : Int) (v : ℚ),
        moveAxis (velocityBound hs dist fps) (accelOf hs dist fps) true d v = 0
          ∨ sign (moveAxis (velocityBound hs dist fps) (accelOf hs dist fps) true d v)
              = sign v)
    ∧ (∀ (ds : List Int) (v : ℚ), ⌈|v| / accelOf hs dist fps⌉ ≤ (ds.length : ℤ) →
        stunFold (velocityBound hs dist fps) (accelOf hs dist fps) ds v = 0)
    ∧ (∀ d : Int, moveAxis (velocityBound hs dist fps) (accelOf hs dist fps) true d 0 = 0) := by
  have ha : 0 < accelOf hs dist fps := by
    unfold accelOf velocityBound
    positivity
  set V := velocityBound hs dist fps
  set a := accelOf hs dist fps
  refine ⟨?_, ?_, ?_, fun d => moveAxis_stun_zero V a true d ha (Or.inl rfl)⟩
  · intro d v hv
    rcases lt_trichotomy v 0 with h | h | h
    · rw [moveAxis_stun_neg V a true d ha (Or.inl rfl) h]
      split_ifs with hc
      · rw [abs_zero]
        exact abs_pos.mpr hv
      · rw [abs_of_neg (by linarith), abs_of_neg h]
        linarith
    · exact absurd h hv
    · rw [moveAxis_stun_pos V a true d ha (Or.inl rfl) h]
      split_ifs with hc
      · rw [abs_zero]
        exact abs_pos.mpr hv
      · rw [abs_of_pos (by linarith), abs_of_pos h]
        linarith
  · intro d v
    rcases lt_trichotomy v 0 with h | h | h
    · rw [moveAxis_stun_neg V a true d ha (Or.inl rfl) h]
      split_ifs with hc
      · exact Or.inl rfl
      · exact Or.inr (by rw [sign_of_neg (by linarith), sign_of_neg h])
    · rw [h, moveAxis_stun_zero V a true d ha (Or.inl rfl)]
      exact Or.inl rfl
    · rw [moveAxis_stun_pos V a true d ha (Or.inl rfl) h]
      split_ifs with hc
      · exact Or.inl rfl
      · exact Or.inr (by rw [sign_of_pos (by linarith), sign_of_pos h])
  · intro ds v h
    apply stunFold_le_zero V a ha
    have h1 : |v| / a ≤ ((ds.length : ℤ) : ℚ) := Int.ceil_le.mp h
    rw [div_le_iff ha] at h1
    push_cast at h1
    exact h1

theorem c6_stun_decelerates_witness :
    ((0 : ℚ) < 5 ∧ (0 : ℚ) < 100 ∧ (0 : ℚ) < 60)
    ∧ moveAxis (velocityBound 5 100 60) (accelOf 5 100 60) true 2 0 = 0 :=
  ⟨⟨by norm_num, by norm_num, by norm_num⟩,
    (c6_stun_decelerates 5 100 60 (by norm_num) (by norm_num) (by norm_num)).2.2.2 2⟩

/-- C3 (amended): with the distance and the rate held fixed, each axis speed
stays at or below the velocity bound after every movement update, except that
a direction-reversal tick may overshoot, and then only into the band between
2 * accel - bound and 2 * accel; from any such overshoot every possible next
update (any intent, stunned or not) restores the speed to at most the bound,
so the overshoot is corrected within one tick.  Without fixing the rate the
original claim fails: a rate increase shrinks the bound and a deceleration
tick can leave the speed above it (see the counterexample). -/
theorem c3_bound_invariant_amended (hs dist fps : ℚ)
    (hhs : 0 < hs) (hdist : 0 < dist) (hfps : 0 < fps)
    (d : Int) (st : Bool) (v : ℚ) (hd : d = -1 ∨ d = 0 ∨ d = 1) :
    (|v| ≤ velocityBound hs dist fps →
        |moveAxis (velocityBound hs dist fps) (accelOf hs dist fps) st d v|
            ≤ velocityBound hs dist fps
          ∨ (st = false ∧ (d : ℚ) * v < 0
              ∧ velocityBound hs dist fps
                  < |moveAxis (velocityBound hs dist fps) (accelOf hs dist fps) st d v|
              ∧ |moveAxis (velocityBound hs dist fps) (accelOf hs dist fps) st d v|
                  < 2 * accelOf hs dist fps
              ∧ 2 * accelOf hs dist fps - velocityBound hs dist fps
                  ≤ |moveAxis (velocityBound hs dist fps) (accelOf hs dist fps) st d v|))
    ∧ (velocityBound hs dist fps < |v| → |v| < 2 * accelOf hs dist fps →
        2 * accelOf hs dist fps - velocityBound hs dist fps ≤ |v| →
        |moveAxis (velocityBound hs dist fps) (accelOf hs dist fps) st d v|
          ≤ velocityBound hs dist fps) := by
  have hV : 0 < velocityBound hs dist fps := by
    unfold velocityBound
    positivity
  have ha : 0 < accelOf hs dist fps := by
    unfold accelOf velocityBound
    positivity
  set V := velocityBound hs dist fps
  set a := accelOf hs dist fps
  constructor
  · intro hv
    by_cases hst : st = true ∨ d = 0
    · left
      rcases lt_trichotomy v 0 with h | h | h
      · rw [moveAxis_stun_neg V a st d ha hst h]
        split_ifs with hc
        · simpa using hV.le
        · rw [abs_of_neg (by linarith)]
          rw [abs_of_neg h] at hv
          linarith
      · rw [h, moveAxis_stun_zero V a st d ha hst]
        simpa using hV.le
      · rw [moveAxis_stun_pos V a st d ha hst h]
        split_ifs with hc
        · simpa using hV.le
        · rw [abs_of_pos (by linarith)]
          rw [abs_of_pos h] at hv
          linarith
    · have hd0 : d ≠ 0 := fun hdd => hst (Or.inr hdd)
      have hstf : st = false := by
        rcases st with _ | _
        · rfl
        · exact absurd (Or.inl rfl) hst
      by_cases hrev : (d : ℚ) * v < 0
      · rw [moveAxis_rev V a st d v hst hrev]
        rcases hd with hd1 | hd1 | hd1
        · subst hd1
          rw [show ((-1 : Int) : ℚ) = -1 by norm_num] at hrev ⊢
          have hvpos : 0 < v := by nlinarith
          rw [abs_of_pos hvpos] at hv
          have hr : v + -1 * 2 * a = v - 2 * a := by ring
          rw [hr]
          rcases le_or_lt |v - 2 * a| V with hle | hgt
          · exact Or.inl hle
          · have hrneg : v - 2 * a < 0 := by
              by_contra hpos
              push_neg at hpos
              rw [abs_of_nonneg hpos] at hgt
              linarith
            rw [abs_of_neg hrneg] at hgt ⊢
            exact Or.inr ⟨hstf, hrev, hgt, by linarith, by linarith⟩
        · exact absurd hd1 hd0
        · subst hd1
          rw [show ((1 : Int) : ℚ) = 1 by norm_num] at hrev ⊢
          have hvneg : v < 0 := by nlinarith
          rw [abs_of_neg hvneg] at hv
          have hr : v + 1 * 2 * a = v + 2 * a := by ring
          rw [hr]
          rcases le_or_lt |v + 2 * a| V with hle | hgt
          · exact Or.inl hle
          · have hrpos : 0 < v + 2 * a := by
              by_contra hpos
              push_neg at hpos
              rw [abs_of_nonpos hpos] at hgt
              linarith
            rw [abs_of_pos hrpos] at hgt ⊢
            exact Or.inr ⟨hstf, hrev, hgt, by linarith, by linarith⟩
      · rw [moveAxis_fwd V a st d v hst hrev]
        split_ifs with hclamp
        · left
          rcases hd with hd1 | hd1 | hd1
          · subst hd1
            rw [show ((-1 : Int) : ℚ) = -1 by norm_num, show (-1 : ℚ) * V = -V by ring,
              abs_neg, abs_of_pos hV]
          · exact absurd hd1 hd0
          · subst hd1
            rw [show ((1 : Int) : ℚ) = 1 by norm_num, one_mul, abs_of_pos hV]
        · exact Or.inl (le_of_not_lt hclamp)
  · intro hvV hv2a hvlo
    by_cases hst : st = true ∨ d = 0
    · rcases lt_trichotomy v 0 with h | h | h
      · rw [moveAxis_stun_neg V a st d ha hst h]
        rw [abs_of_neg h] at hv2a
        rw [if_pos (by linarith)]
        simpa using hV.le
      · exfalso
        rw [h, abs_zero] at hvV
        linarith
      · rw [moveAxis_stun_pos V a st d ha hst h]
        rw [abs_of_pos h] at hv2a
        rw [if_pos (by linarith)]
        simpa using hV.le
    · have hd0 : d ≠ 0 := fun hdd => hst (Or.inr hdd)
      by_cases hrev : (d : ℚ) * v < 0
      · rw [moveAxis_rev V a st d v hst hrev]
        rcases hd with hd1 | hd1 | hd1
        · subst hd1
          rw [show ((-1 : Int) : ℚ) = -1 by norm_num] at hrev ⊢
          have hvpos : 0 < v := by nlinarith
          rw [abs_of_pos hvpos] at hvV hv2a hvlo
          have hr : v + -1 * 2 * a = v - 2 * a := by ring
          rw [hr]
          rw [abs_of_neg (by linarith : v - 2 * a < 0)]
          linarith
        · exact absurd hd1 hd0
        · subst hd1
          rw [show ((1 : Int) : ℚ) = 1 by norm_num] at hrev ⊢
          have hvneg : v < 0 := by nlinarith
          rw [abs_of_neg hvneg] at hvV hv2a hvlo
          have hr : v + 1 * 2 * a = v + 2 * a := by ring
          rw [hr]
          rw [abs_of_pos (by linarith : 0 < v + 2 * a)]
          linarith
      · rw [moveAxis_fwd V a st d v hst hrev]
        split_ifs with hclamp
        · rcases hd with hd1 | hd1 | hd1
          · subst hd1
            rw [show ((-1 : Int) : ℚ) = -1 by norm_num, show (-1 : ℚ) * V = -V by ring,
              abs_neg, abs_of_pos hV]
          · exact absurd hd1 hd0
          · subst hd1
            rw [show ((1 : Int) : ℚ) = 1 by norm_num, one_mul, abs_of_pos hV]
        · exact le_of_not_lt hclamp

theorem c3_bound_invariant_amended_witness :
    (velocityBound 60 1 60 < |(3/2 : ℚ)| ∧ |(3/2 : ℚ)| < 2 * accelOf 60 1 60
      ∧ 2 * accelOf 60 1 60 - velocityBound 60 1 60 ≤ |(3/2 : ℚ)|)
    ∧ |moveAxis (velocityBound 60 1 60) (accelOf 60 1 60) false 0 (3/2)|
        ≤ velocityBound 60 1 60 :=
  ⟨⟨by rw [abs_of_pos (by norm_num : (0:ℚ) < 3/2)]; norm_num [velocityBound],
    by rw [abs_of_pos (by norm_num : (0:ℚ) < 3/2)]; norm_num [accelOf, velocityBound],
    by rw [abs_of_pos (by norm_num : (0:ℚ) < 3/2)]; norm_num [accelOf, velocityBound]⟩,
    (c3_bound_invariant_amended 60 1 60 (by norm_num) (by norm_num) (by norm_num) 0 false (3/2)
        (Or.inr (Or.inl rfl))).2
      (by rw [abs_of_pos (by norm_num : (0:ℚ) < 3/2)]; norm_num [velocityBound])
      (by rw [abs_of_pos (by norm_num : (0:ℚ) < 3/2)]; norm_num [accelOf, velocityBound])
      (by rw [abs_of_pos (by norm_num : (0:ℚ) < 3/2)]; norm_num [accelOf, velocityBound])⟩

lemma iterAxis_ramp (V a : ℚ) (hV : 0 < V) (ha : 0 < a) :
    ∀ n : ℕ, iterAxis V a false 1 n 0 = min ((n : ℚ) * a) V := by
  intro n
  induction n with
  | zero => simp [iterAxis, min_eq_left hV.le]
  | succ n ih =>
      have hstep : iterAxis V a false 1 (n + 1) 0
          = moveAxis V a false 1 (iterAxis V a false 1 n 0) := rfl
      rw [hstep, ih]
      have hw0 : 0 ≤ min ((n : ℚ) * a) V := le_min (by positivity) hV.le
      have hst : ¬((false = true) ∨ ((1 : Int) = 0)) := by norm_num
      have hone : ((1 : Int) : ℚ) = 1 := by norm_num
      have hrev : ¬(((1 : Int) : ℚ) * min ((n : ℚ) * a) V < 0) := by
        rw [hone, one_mul]
        exact not_lt.mpr hw0
      rw [moveAxis_fwd V a false 1 (min ((n : ℚ) * a) V) hst hrev, hone]
      simp only [one_mul]
      rw [abs_of_nonneg (by linarith : (0 : ℚ) ≤ min ((n : ℚ) * a) V + a)]
      have hcast : ((n + 1 : ℕ) : ℚ) * a = (n : ℚ) * a + a := by
        push_cast
        ring
      rw [hcast]
      rcases min_cases ((n : ℚ) * a) V with ⟨he, hle⟩ | ⟨he, hlt⟩
      · rw [he]
        split_ifs with hc
        · rw [min_eq_right (by linarith)]
        · rw [min_eq_left (by linarith)]
      · rw [he, if_pos (by linarith), min_eq_right (by linarith)]

lemma iterAxis_rev_formula (V a : ℚ) :
    ∀ j : ℕ, (∀ i : ℕ, i < j → 0 < V - 2 * (i : ℚ) * a) →
      iterAxis V a false (-1) j V = V - 2 * (j : ℚ) * a := by
  intro j
  induction j with
  | zero => intro _; simp [iterAxis]
  | succ j ih =>
      intro hpos
      have hstep : iterAxis V a false (-1) (j + 1) V
          = moveAxis V a false (-1) (iterAxis V a false (-1) j V) := rfl
      rw [hstep, ih (fun i hi => hpos i (by omega))]
      have hj : 0 < V - 2 * (j : ℚ) * a := hpos j (by omega)
      have hst : ¬((false = true) ∨ ((-1 : Int) = 0)) := by norm_num
      have hneg : ((-1 : Int) : ℚ) = -1 := by norm_num
      have hrev : ((-1 : Int) : ℚ) * (V - 2 * (j : ℚ) * a) < 0 := by
        rw [hneg]
        nlinarith
      rw [moveAxis_rev V a false (-1) _ hst hrev, hneg]
      push_cast
      ring

/-- C5 (amended): with distance 100, fps 60, HERO_SPEED k and zero initial
velocity, constant input 1 drives the velocity along min(n * accel, bound),
strictly increasing while below the bound, equal to the bound for every tick
count from ceil(60 / k) on; switching the input to -1 then moves the
velocity down by 2 * accel per tick through the double-acceleration branch,
and it first crosses zero at tick ceil(30 / k) after the switch - one tick
only when k is at least 30, not in general as the original claim states. -/
theorem c5_ramp_and_reversal (k : ℚ) (hk : 0 < k) :
    (∀ n : ℕ, iterAxis (velocityBound k 100 60) (accelOf k 100 60) false 1 n 0
        = min ((n : ℚ) * accelOf k 100 60) (velocityBound k 100 60))
    ∧ (∀ n : ℕ, (n : ℚ) * accelOf k 100 60 < velocityBound k 100 60 →
        iterAxis (velocityBound k 100 60) (accelOf k 100 60) false 1 n 0
          < iterAxis (velocityBound k 100 60) (accelOf k 100 60) false 1 (n + 1) 0)
    ∧ (∀ n : ℕ, (60 : ℚ) / k ≤ (n : ℚ) →
        iterAxis (velocityBound k 100 60) (accelOf k 100 60) false 1 n 0
          = velocityBound k 100 60)
    ∧ (∀ j : ℕ, (j : ℤ) < ⌈(30 : ℚ) / k⌉ →
        iterAxis (velocityBound k 100 60) (accelOf k 100 60) false (-1) j
              (velocityBound k 100 60)
            = velocityBound k 100 60 - 2 * (j : ℚ) * accelOf k 100 60
          ∧ 0 < velocityBound k 100 60 - 2 * (j : ℚ) * accelOf k 100 60)
    ∧ iterAxis (velocityBound k 100 60) (accelOf k 100 60) false (-1)
          (⌈(30 : ℚ) / k⌉.toNat) (velocityBound k 100 60) ≤ 0 := by
  have hV : 0 < velocityBound k 100 60 := by
    unfold velocityBound
    positivity
  have ha : 0 < accelOf k 100 60 := by
    unfold accelOf velocityBound
    positivity
  set V := velocityBound k 100 60 with hVdef
  set a := accelOf k 100 60 with hadef
  have key1 : a * (60 / k) = V := by
    rw [hVdef, hadef]
    unfold accelOf velocityBound
    field_simp
    ring
  have key2 : 2 * a * (30 / k) = V := by
    rw [show (2 : ℚ) * a * (30 / k) = a * (60 / k) by ring, key1]
  have hposVa : ∀ i : ℕ, (i : ℚ) < 30 / k → 0 < V - 2 * (i : ℚ) * a := by
    intro i hi
    nlinarith
  refine ⟨iterAxis_ramp V a hV ha, ?_, ?_, ?_, ?_⟩
  · intro n hn
    rw [iterAxis_ramp V a hV ha, iterAxis_ramp V a hV ha]
    rw [min_eq_left hn.le]
    have hcast : ((n + 1 : ℕ) : ℚ) * a = (n : ℚ) * a + a := by
      push_cast
      ring
    rw [hcast]
    exact lt_min (by linarith) hn
  · intro n hn
    rw [iterAxis_ramp V a hV ha]
    have hVa : V ≤ (n : ℚ) * a := by
      have h1 : a * (60 / k) ≤ a * (n : ℚ) := mul_le_mul_of_nonneg_left hn ha.le
      rw [key1] at h1
      linarith
    exact min_eq_right hVa
  · intro j hj
    have hjq : (j : ℚ) < 30 / k := by
      have := Int.lt_ceil.mp hj
      exact_mod_cast this
    have hform := iterAxis_rev_formula V a j
      (fun i hi => hposVa i (lt_trans (by exact_mod_cast hi) hjq))
    exact ⟨hform, hposVa j hjq⟩
  · have hJ1 : 0 < ⌈(30 : ℚ) / k⌉ := Int.ceil_pos.mpr (by positivity)
    have hposi : ∀ i : ℕ, i < ⌈(30 : ℚ) / k⌉.toNat → 0 < V - 2 * (i : ℚ) * a := by
      intro i hi
      apply hposVa
      have hiz : (i : ℤ) < ⌈(30 : ℚ) / k⌉ := by omega
      exact_mod_cast Int.lt_ceil.mp hiz
    have h2 : ((⌈(30 : ℚ) / k⌉.toNat : ℕ) : ℤ) = ⌈(30 : ℚ) / k⌉ := Int.toNat_of_nonneg hJ1.le
    have h3 : ((⌈(30 : ℚ) / k⌉.toNat : ℕ) : ℚ) = ((⌈(30 : ℚ) / k⌉ : ℤ) : ℚ) := by
      exact_mod_cast h2
    have hceilq : (30 : ℚ) / k ≤ ((⌈(30 : ℚ) / k⌉.toNat : ℕ) : ℚ) := by
      rw [h3]
      exact Int.le_ceil _
    obtain ⟨m, hm⟩ : ∃ m : ℕ, ⌈(30 : ℚ) / k⌉.toNat = m + 1 :=
      ⟨⌈(30 : ℚ) / k⌉.toNat - 1, by omega⟩
    rw [hm]
    have hstep : iterAxis V a false (-1) (m + 1) V
        = moveAxis V a false (-1) (iterAxis V a false (-1) m V) := rfl
    rw [hstep, iterAxis_rev_formula V a m (fun i hi => hposi i (by omega))]
    have hw : 0 < V - 2 * (m : ℚ) * a := hposi m (by omega)
    have hst : ¬((false = true) ∨ ((-1 : Int) = 0)) := by norm_num
    have hneg : ((-1 : Int) : ℚ) = -1 := by norm_num
    have hrev : ((-1 : Int) : ℚ) * (V - 2 * (m : ℚ) * a) < 0 := by
      rw [hneg]
      nlinarith
    rw [moveAxis_rev V a false (-1) _ hst hrev, hneg]
    have h30 : (30 : ℚ) / k ≤ (m : ℚ) + 1 := by
      have hm1 : ((m : ℚ) + 1) = ((⌈(30 : ℚ) / k⌉.toNat : ℕ) : ℚ) := by
        rw [hm]
        push_cast
        ring
      rw [hm1]
      exact hceilq
    nlinarith [mul_nonneg ha.le (sub_nonneg.mpr h30), key2]

theorem c5_ramp_and_reversal_witness :
    (0 : ℚ) < 5
    ∧ (∀ n : ℕ, (60 : ℚ) / 5 ≤ (n : ℚ) →
        iterAxis (velocityBound 5 100 60) (accelOf 5 100 60) false 1 n 0
          = velocityBound 5 100 60) :=
  ⟨by norm_num, (c5_ramp_and_reversal 5 (by norm_num)).2.2.1⟩

/-- C5, counterexample: with HERO_SPEED k = 5 the ramp reaches the bound
after twelve ticks, but a subsequent tick of opposite input leaves the
velocity at 125/18, still strictly positive: the velocity does not cross
zero within one tick of the input reversal. -/
theorem c5_one_tick_reversal_counterexample :
    iterAxis (velocityBound 5 100 60) (accelOf 5 100 60) false 1 12 0 = velocityBound 5 100 60
    ∧ moveAxis (velocityBound 5 100 60) (accelOf 5 100 60) false (-1) (velocityBound 5 100 60)
        = 125 / 18
    ∧ (0 : ℚ) < 125 / 18 := by
  refine ⟨?_, ?_, by norm_num⟩
  · rw [iterAxis_ramp (velocityBound 5 100 60) (accelOf 5 100 60)
      (by norm_num [velocityBound]) (by norm_num [accelOf, velocityBound]) 12]
    norm_num [velocityBound, accelOf, min_def]
  · norm_num [moveAxis, sign, velocityBound, accelOf]

/-! Rate-state invariants over full loop traces. -/

lemma processEvent_rate (b : Bindings) (s s' : GameState) (e : Event)
    (h : processEvent b s e = some s') : s'.fps = s.fps ∧ s'.maxFps = s.maxFps := by
  cases e with
  | quit => simp [processEvent] at h
  | videoresize nd =>
      simp only [processEvent] at h
      injection h with h
      subst h
      exact ⟨rfl, rfl⟩
  | keydown k =>
      simp only [processEvent] at h
      split_ifs at h <;> (injection h with h; subst h; exact ⟨rfl, rfl⟩)
  | other =>
      simp only [processEvent] at h
      injection h with h
      subst h
      exact ⟨rfl, rfl⟩

lemma processEvents_rate (b : Bindings) : ∀ (es : List Event) (s s' : GameState),
    processEvents b s es = some s' → s'.fps = s.fps ∧ s'.maxFps = s.maxFps := by
  intro es
  induction es with
  | nil =>
      intro s s' h
      simp only [processEvents] at h
      injection h with h
      subst h
      exact ⟨rfl, rfl⟩
  | cons e es ih =>
      intro s s' h
      simp only [processEvents] at h
      cases heq : processEvent b s e with
      | none => rw [heq] at h; simp at h
      | some s1 =>
          rw [heq] at h
          have h2 : processEvents b s1 es = some s' := h
          obtain ⟨hf, hmx⟩ := ih s1 s' h2
          obtain ⟨hf1, hmx1⟩ := processEvent_rate b s s1 e heq
          exact ⟨hf.trans hf1, hmx.trans hmx1⟩

lemma fpsAdjust_inv (measured fps : ℚ) (maxFps : ℤ) (paused : Bool)
    (hm : 0 ≤ measured) (hint : ∃ n : ℤ, fps = (n : ℚ)) (h0 : 0 ≤ fps)
    (h4 : fps ≤ (maxFps : ℚ) + 4) :
    (∃ n : ℤ, fpsAdjust measured fps maxFps paused = (n : ℚ))
      ∧ 0 ≤ fpsAdjust measured fps maxFps paused
      ∧ fpsAdjust measured fps maxFps paused ≤ (maxFps : ℚ) + 4 := by
  obtain ⟨n, rfl⟩ := hint
  unfold fpsAdjust
  split_ifs with h1 h2
  · have hn0 : (0 : ℚ) < (n : ℚ) := lt_of_le_of_lt hm h1
    have hn : 0 < n := by exact_mod_cast hn0
    have hn1 : (1 : ℚ) ≤ (n : ℚ) := by exact_mod_cast hn
    exact ⟨⟨n - 1, by push_cast; ring⟩, by linarith, by linarith⟩
  · have hlt : (n : ℚ) < (maxFps : ℚ) := h2.1
    have hn : n < maxFps := by exact_mod_cast hlt
    have hle : ((n : ℚ) + 5) ≤ (maxFps : ℚ) + 4 := by
      have h5 : n + 5 ≤ maxFps + 4 := by omega
      exact_mod_cast h5
    exact ⟨⟨n + 5, by push_cast; ring⟩, by linarith, hle⟩
  · exact ⟨⟨n, rfl⟩, h0, h4⟩

/-- The rate-state invariant the code actually maintains: fps stays an
integer between 0 and max_fps + 4. -/
def RateInv (s : GameState) : Prop :=
  (∃ n : ℤ, s.fps = (n : ℚ)) ∧ 0 ≤ s.fps ∧ s.fps ≤ (s.maxFps : ℚ) + 4

lemma loopStep_rate (hs : ℚ) (b : Bindings) (s s' : GameState) (t : TickInput)
    (hm : 0 ≤ t.measured) (h : loopStep hs b s t = some s') (hI : RateInv s) :
    RateInv s' ∧ s'.maxFps = s.maxFps := by
  unfold loopStep at h
  cases heq : processEvents b s t.events with
  | none => rw [heq] at h; simp at h
  | some s1 =>
      rw [heq] at h
      have hsome : some (if ({ movementPhase hs b t s1 with
            fps := fpsAdjust t.measured (movementPhase hs b t s1).fps
              (movementPhase hs b t s1).maxFps (movementPhase hs b t s1).paused } :
            GameState).paused = true
          then { movementPhase hs b t s1 with
            fps := fpsAdjust t.measured (movementPhase hs b t s1).fps
              (movementPhase hs b t s1).maxFps (movementPhase hs b t s1).paused }
          else { movementPhase hs b t s1 with
            fps := fpsAdjust t.measured (movementPhase hs b t s1).fps
              (movementPhase hs b t s1).maxFps (movementPhase hs b t s1).paused,
            maze := mazeUpdate (movementPhase hs b t s1).maze t.deadAfter }) = some s' := h
      have hval := Option.some.inj hsome
      have hs' : s'.fps = fpsAdjust t.measured (movementPhase hs b t s1).fps
            (movementPhase hs b t s1).maxFps (movementPhase hs b t s1).paused
          ∧ s'.maxFps = (movementPhase hs b t s1).maxFps := by
        split_ifs at hval <;> (rw [← hval]; exact ⟨rfl, rfl⟩)
      obtain ⟨e1, e2⟩ := processEvents_rate b t.events s s1 heq
      obtain ⟨mp1, mp2, mp3⟩ := movementPhase_rate hs b t s1
      have hfps : s'.fps = fpsAdjust t.measured s.fps s.maxFps s1.paused := by
        rw [hs'.1, mp1, mp2, mp3, e1, e2]
      have hmax : s'.maxFps = s.maxFps := by
        rw [hs'.2, mp2, e2]
      have key := fpsAdjust_inv t.measured s.fps s.maxFps s1.paused hm hI.1 hI.2.1 hI.2.2
      refine ⟨⟨?_, ?_, ?_⟩, hmax⟩
      · rw [hfps]
        exact key.1
      · rw [hfps]
        exact key.2.1
      · rw [hfps, hmax]
        exact key.2.2

lemma runLoop_rate (hs : ℚ) (b : Bindings) : ∀ (ts : List TickInput) (s s' : GameState),
    (∀ t ∈ ts, 0 ≤ t.measured) → RateInv s → runLoop hs b s ts = some s' →
    RateInv s' ∧ s'.maxFps = s.maxFps := by
  intro ts
  induction ts with
  | nil =>
      intro s s' _ hI h
      simp only [runLoop] at h
      injection h with h
      subst h
      exact ⟨hI, rfl⟩
  | cons t ts ih =>
      intro s s' hm hI h
      simp only [runLoop] at h
      cases heq : loopStep hs b s t with
      | none => rw [heq] at h; simp at h
      | some s1 =>
          rw [heq] at h
          have h2 : runLoop hs b s1 ts = some s' := h
          obtain ⟨hI1, hmax1⟩ := loopStep_rate hs b s s1 t (hm t (by simp)) heq hI
          obtain ⟨hI2, hmax2⟩ := ih s1 s' (fun u hu => hm u (by simp [hu])) hI1 h2
          exact ⟨hI2, hmax2.trans hmax1⟩

/-- C7 (amended): over every loop trace with nonnegative measured
throughputs, the current rate is always an integer in the closed interval
from 0 to max_fps + 4.  The interval claimed originally, strictly positive
and at most max_fps, is wrong at both ends: the rate can reach 0 and can
exceed max_fps by up to 4 (see the counterexample). -/
theorem c7_fps_range_amended (hs : ℚ) (b : Bindings) (maxFps : ℤ) (dist : ℚ) (muted : Bool)
    (ts : List TickInput) (s' : GameState) (hmax : 0 < maxFps)
    (hm : ∀ t ∈ ts, 0 ≤ t.measured)
    (h : runLoop hs b (initGame maxFps dist muted) ts = some s') :
    (∃ n : ℤ, s'.fps = (n : ℚ)) ∧ 0 ≤ s'.fps ∧ s'.fps ≤ (maxFps : ℚ) + 4 := by
  have hI : RateInv (initGame maxFps dist muted) := by
    refine ⟨⟨maxFps, rfl⟩, ?_, ?_⟩
    · show (0 : ℚ) ≤ (maxFps : ℚ)
      exact_mod_cast hmax.le
    · show (maxFps : ℚ) ≤ ((maxFps : ℤ) : ℚ) + 4
      linarith
  obtain ⟨⟨hex, h0, h4⟩, hmax'⟩ := runLoop_rate hs b ts (initGame maxFps dist muted) s' hm hI h
  have hmx : s'.maxFps = maxFps := hmax'
  rw [hmx] at h4
  exact ⟨hex, h0, h4⟩

theorem c7_fps_range_amended_witness :
    ((0 : ℤ) < 60 ∧ ∀ t ∈ ([] : List TickInput), 0 ≤ t.measured)
    ∧ ((∃ n : ℤ, (initGame 60 100 false).fps = (n : ℚ)) ∧ 0 ≤ (initGame 60 100 false).fps
        ∧ (initGame 60 100 false).fps ≤ (60 : ℚ) + 4) :=
  ⟨⟨by norm_num, by simp⟩,
    c7_fps_range_amended 5 bStd 60 100 false [] (initGame 60 100 false)
      (by norm_num) (by simp) rfl⟩

/-- C7, counterexample: from a fresh state with max_fps 60, one
under-performing tick followed by one on-target tick leaves the rate at 64,
outside the claimed interval (0, max_fps]: the drop to 59 satisfies
59 < 60, so the next tick ramps by 5 with no clamp. -/
theorem c7_fps_range_counterexample :
    (runLoop 5 bStd (initGame 60 100 false) [tIdle, tSixty]).map
        (fun s => (s.fps, s.maxFps)) = some (64, 60)
      ∧ ¬((64 : ℚ) ≤ ((60 : ℤ) : ℚ)) := by
  refine ⟨?_, by norm_num⟩
  norm_num [runLoop, loopStep, processEvents, movementPhase, move, moveAxis, sign,
    intentX, intentY, lookupAction, velocityBound, accelOf, fpsAdjust, mazeUpdate,
    initGame, bStd, tIdle, tSixty]

/-- A paused tick carrying the toggle-pause key press, on-target throughput. -/
def tPauseKey : TickInput :=
  { events := [Event.keydown 2], pressed := [], mouseButtons := [], stunned := false,
    measured := 55, deadAfter := false }

/-- A tick with the move-left key held and on-target throughput. -/
def tLeftHeld : TickInput :=
  { events := [], pressed := [4], mouseButtons := [], stunned := false,
    measured := 55, deadAfter := false }

/-- A tick pressing toggle-pause again while still holding move-left. -/
def tUnpause : TickInput :=
  { events := [Event.keydown 2], pressed := [4], mouseButtons := [], stunned := false,
    measured := 55, deadAfter := false }

/-- A tick with no input at all and on-target throughput. -/
def tCoast : TickInput :=
  { events := [], pressed := [], mouseButtons := [], stunned := false,
    measured := 60, deadAfter := false }

/-- Reachable loop trace refuting the velocity-bound invariant: five
under-performing ticks drop the rate from 60 to 55; a pause press freezes
the rate; eleven ticks of held movement bring the velocity to the fps-55
bound 100/11; unpausing lets the rate ramp to 60, which shrinks the bound to
25/3; the final idle tick only decelerates by accel and leaves the speed
above the new bound. -/
def c3Trace : List TickInput :=
  [tIdle, tIdle, tIdle, tIdle, tIdle, tPauseKey,
   tLeftHeld, tLeftHeld, tLeftHeld, tLeftHeld, tLeftHeld, tLeftHeld,
   tLeftHeld, tLeftHeld, tLeftHeld, tLeftHeld, tLeftHeld,
   tUnpause, tCoast]

/-- C3, counterexample: on a reachable loop trace the movement controller
leaves the horizontal speed at 3325/396, strictly above the instantaneous
velocity bound 100 * HERO_SPEED / fps = 25/3, on a tick whose intent is 0 -
a deceleration tick, not a direction-reversal tick - so the claimed
invariant fails as stated once the rate changes between ticks. -/
theorem c3_bound_invariant_counterexample :
    (runLoop 5 bStd (initGame 60 100 false) c3Trace).map
        (fun s => (s.maze.vx, s.maze.distance, s.fps)) = some (3325/396, 100, 60)
      ∧ velocityBound 5 100 60 < |(3325/396 : ℚ)|
      ∧ intentX bStd tCoast.pressed = 0 ∧ tCoast.stunned = false
      ∧ c3Trace.getLast? = some tCoast := by
  refine ⟨?_, ?_, by norm_num [intentX, bStd, tCoast], rfl, rfl⟩
  · norm_num [c3Trace, runLoop, loopStep, processEvents, processEvent, movementPhase,
      move, moveAxis, sign, intentX, intentY, lookupAction, velocityBound, accelOf,
      fpsAdjust, mazeUpdate, mazeReinit, initGame, bStd, tIdle, tPauseKey, tLeftHeld,
      tUnpause, tCoast, abs_of_pos, abs_of_nonneg]
  · rw [show |(3325/396 : ℚ)| = 3325/396 from abs_of_pos (by norm_num)]
    norm_num [velocityBound]

end Brutalmaze
